import Mathlib

/-!
Verification of the passata password-store core (src/passata.py).

The Python dictionaries that hold the database are modelled as ordered
association lists (`List (String × _)`), which captures the insertion
order semantics of Python dicts: assigning to an existing key keeps its
position, assigning to a new key appends, and iteration follows list
order.  `sys.exit` calls are modelled with `Except String`; interactive
confirmation prompts (`click.confirm` via `confirm`) are modelled by
returning the list of prompt messages that the run would issue, under
the semantics in which the user confirms every prompt.
-/

namespace Passata

/-- Field values inside an Entry.  Scalars (strings, ints, ...) are
modelled by their string form, since the code only ever uses them via
`str(...)`; a `keywords` field may be a scalar or a list. -/
inductive FieldVal where
  | scalar (s : String)
  | list (xs : List String)
deriving Repr, DecidableEq

/-- The type annotations of the source: `Entry = dict[str, Any]`. -/
abbrev Entry := List (String × FieldVal)

/-- The type annotations of the source: `Group = dict[str, Entry]`. -/
abbrev Group := List (String × Entry)

/-- The type annotations of the source: `Database = dict[str, Group]`. -/
abbrev Database := List (String × Group)

/-- Python `d.get(k)` / `d[k]` on an ordered dict: first binding wins. -/
def findKey? {α : Type} : List (String × α) → String → Option α
  | [], _ => none
  | p :: rest, k => if p.1 == k then some p.2 else findKey? rest k

/-- Python `k in d`. -/
def hasKey {α : Type} (d : List (String × α)) (k : String) : Bool :=
  (findKey? d k).isSome

/-- Python `d[k] = v`: replace in place if the key exists, else append. -/
def setKey {α : Type} : List (String × α) → String → α → List (String × α)
  | [], k, v => [(k, v)]
  | p :: rest, k, v => if p.1 == k then (k, v) :: rest else p :: setKey rest k v

/-- Python `d.pop(k)` / `del d[k]` (the key occurs at most once in a dict;
we drop the first binding). -/
def eraseKey {α : Type} : List (String × α) → String → List (String × α)
  | [], _ => []
  | p :: rest, k => if p.1 == k then rest else p :: eraseKey rest k

/-- The keys of a dict in iteration order. -/
def keysOf {α : Type} (d : List (String × α)) : List String :=
  d.map Prod.fst

/-- Python `sep.split` restricted to a one-character separator, on the
character list of the string ("a//b" gives ["a", "", "b"], "" gives [""]). -/
def pySplitList (sep : Char) : List Char → List (List Char)
  | [] => [[]]
  | c :: rest =>
    match pySplitList sep rest with
    | [] => [[]]
    | h :: t => if c == sep then [] :: h :: t else (c :: h) :: t

/-- Python `name.split("/")` and friends: split on a separator character. -/
def pySplit (s : String) (sep : Char) : List String :=
  (pySplitList sep s.toList).map String.mk

/-- Python `c in s` for a character. -/
def pyContains (s : String) (c : Char) : Bool :=
  s.toList.contains c

/-- Python `s.rstrip(c)` for a one-character strip set. -/
def pyRstrip (s : String) (c : Char) : String :=
  String.mk ((s.toList.reverse.dropWhile (fun x => x == c)).reverse)

/-- Python `s.lower()` (ASCII case mapping, which is all the code relies on). -/
def pyLower (s : String) : String :=
  String.mk (s.toList.map Char.toLower)

/-- Whether `p` begins the character list `l`. -/
def charsBegin : List Char → List Char → Bool
  | [], _ => true
  | _ :: _, [] => false
  | a :: as, b :: bs => a == b && charsBegin as bs

/-- Whether `p` occurs contiguously inside `l`. -/
def charsContain (p : List Char) : List Char → Bool
  | [] => p.isEmpty
  | b :: bs => charsBegin p (b :: bs) || charsContain p bs

/-- Python substring test `q in s` for strings. -/
def pyIn (q s : String) : Bool :=
  charsContain q.toList s.toList

/-- Python whitespace test used by `str.strip()`. -/
def pySpace (c : Char) : Bool :=
  c == ' ' || c == '\t' || c == '\n' || c == '\r' || c == '\x0b' || c == '\x0c'

/-- Python `s.strip()`. -/
def pyStrip (s : String) : String :=
  String.mk (((s.toList.dropWhile pySpace).reverse.dropWhile pySpace).reverse)

/-- Python `sep.join(xs)`. -/
def pyJoin (sep : String) : List String → String
  | [] => ""
  | [x] => x
  | x :: y :: rest => x ++ sep ++ pyJoin sep (y :: rest)

/-- Python string comparison on character lists: lexicographic by code
point (`a.toNat`), non-strict. -/
def strLeList : List Char → List Char → Bool
  | [], _ => true
  | _ :: _, [] => false
  | a :: as, b :: bs =>
    decide (a.toNat < b.toNat) || (decide (a.toNat = b.toNat) && strLeList as bs)

/-- Python `a <= b` on strings, the order used by `sorted`. -/
def strLe (a b : String) : Bool :=
  strLeList a.toList b.toList

/-- The sort relation of Python `sorted` on strings, as a Prop. -/
def strLeP (a b : String) : Prop :=
  strLe a b = true

instance : DecidableRel strLeP := fun a b => by
  unfold strLeP; infer_instance

/-- Sort relation on dict items, comparing keys: `sorted(d.items(), key=fst)`. -/
def keyLe {α : Type} (a b : String × α) : Prop :=
  strLe a.1 b.1 = true

instance {α : Type} : DecidableRel (@keyLe α) := fun a b => by
  unfold keyLe; infer_instance

/-- `passata.isgroup`: `"/" not in name or not name.split("/")[1]`. -/
def isgroup (name : String) : Bool :=
  !pyContains name '/' || ((pySplit name '/').getD 1 "").isEmpty

/-- `passata.split`: split a name into group name and entry name; a name
that is neither falsy nor in group form must split into exactly two
parts, otherwise the command dies with "nested too deeply"
(`sys.exit`, modelled as `Except.error`). -/
def split (name : Option String) : Except String (Option String × Option String) :=
  match name with
  | none => .ok (none, none)
  | some n =>
    if n = "" then .ok (none, none)
    else if isgroup n then .ok (some (pyRstrip n '/'), none)
    else
      match pySplit n '/' with
      | [g, e] => .ok (some g, some e)
      | _ => .error (n ++ " is nested too deeply")

/-- Python truthiness of an optional string (`if not groupname`). -/
def optFalsy : Option String → Bool
  | none => true
  | some s => s == ""

/-- The string rendering of an optional name (only used where the source
has a genuine `str` in hand). -/
def nameStr (name : Option String) : String :=
  name.getD ""

/-- A single quote character, used inside confirmation prompts. -/
def squote : String :=
  String.mk [Char.ofNat 39]

/-- An untyped Python dict at any level of the store, as passed to
`DB.put` and returned by `DB.get` / `DB.pop`: the whole database, a
group, or an entry. -/
inductive Sub where
  | db (d : Database)
  | grp (g : Group)
  | ent (e : Entry)
deriving Repr, DecidableEq

/-- Python truthiness of the `subdict: dict | None` argument of `DB.put`
(`if not subdict`). -/
def subFalsy : Option Sub → Bool
  | none => true
  | some (.db d) => d.isEmpty
  | some (.grp g) => g.isEmpty
  | some (.ent e) => e.isEmpty

/-- `passata.confirm(message, force)` under the always-confirming user:
the list of prompts shown (empty when `force` suppresses the prompt). -/
def confirmPrompts (message : String) (force : Bool) : List String :=
  if force then [] else [message]

/-- The prompt of `DB.pop` for a whole-database removal. -/
def deleteDatabasePrompt : String :=
  "Delete the whole database?"

/-- The prompt of `DB.pop` for a group removal: the group name in
single quotes after "Delete group". -/
def deleteGroupPrompt (groupname : String) : String :=
  "Delete group " ++ squote ++ groupname ++ squote ++ "?"

/-- The prompt of `DB.pop` for an entry removal. -/
def deleteEntryPrompt (name : String) : String :=
  "Delete " ++ squote ++ name ++ squote ++ "?"

/-- `sorted(group.items(), key=lambda t: t[0])`: sort the entries of a
group by entry name (stable; keys are unique in a dict). -/
def sortEntries (g : Group) : Group :=
  List.insertionSort keyLe g

/-- `DB.sort_group`: replace the entries of `groupname` with their
sorted version.  The source indexes `self.db[groupname]` directly and
would raise `KeyError` on a missing group; every call site invokes it
right after inserting the key, so the missing case (modelled as the
identity) is unreachable. -/
def DB.sort_group (db : Database) (groupname : String) : Database :=
  match findKey? db groupname with
  | some g => setKey db groupname (sortEntries g)
  | none => db

/-- `DB.sort`: sort the entries inside every group (the loop mutates
only the values, so it is a map over the groups; group order is kept). -/
def DB.sort (db : Database) : Database :=
  db.map (fun p => (p.1, sortEntries p.2))

/-- `DB.get`: return database, group or entry (`none` models the Python
`None` results of `dict.get`). -/
def DB.get (db : Database) (name : Option String) : Except String (Option Sub) :=
  match split name with
  | .error m => .error m
  | .ok (g?, e?) =>
    if optFalsy g? then .ok (some (.db db))
    else if optFalsy e? then .ok ((findKey? db (nameStr g?)).map .grp)
    else if !hasKey db (nameStr g?) then .ok none
    else
      match findKey? db (nameStr g?) with
      | some grp => .ok ((findKey? grp (nameStr e?)).map .ent)
      | none => .ok none

/-- The outcome of `DB.pop`: the database after the call, the removed
subdict (the `None`-or-dict return value of the source), and the
confirmation prompts issued along the way. -/
structure PopOut where
  db : Database
  popped : Option Sub
  prompts : List String
deriving Repr, DecidableEq

/-- `DB.pop`: remove subdict and every empty parent and return it.  The
user is modelled as confirming every prompt; the prompts that would be
shown are recorded in the result. -/
def DB.pop (db : Database) (name : Option String) (force : Bool) : Except String PopOut :=
  match split name with
  | .error m => .error m
  | .ok (g?, e?) =>
    if optFalsy g? then
      .ok ⟨[], none, confirmPrompts deleteDatabasePrompt force⟩
    else
      match findKey? db (nameStr g?) with
      | none => .ok ⟨db, none, []⟩
      | some grp =>
        if optFalsy e? then
          .ok ⟨eraseKey db (nameStr g?), some (.grp grp),
               confirmPrompts (deleteGroupPrompt (nameStr g?)) force⟩
        else
          match findKey? grp (nameStr e?) with
          | none => .ok ⟨db, none, []⟩
          | some ent =>
            .ok ⟨if (eraseKey grp (nameStr e?)).isEmpty then eraseKey db (nameStr g?)
                 else setKey db (nameStr g?) (eraseKey grp (nameStr e?)),
                 some (.ent ent),
                 confirmPrompts (deleteEntryPrompt (nameStr name)) force⟩

/-- `DB.put`: add or replace subdict creating group if needed; an empty
or absent value delegates to `DB.pop` with its default `force=False`
(the popped value is discarded).  The source stores the given dict at
whatever level the name addresses; a value whose shape does not match
the addressed level would leave the store outside its declared
`Database` type, which the typed embedding reports as an error. -/
def DB.put (db : Database) (name : Option String) (subdict : Option Sub) :
    Except String (Database × List String) :=
  if subFalsy subdict then
    match DB.pop db name false with
    | .error m => .error m
    | .ok r => .ok (r.db, r.prompts)
  else
    match split name with
    | .error m => .error m
    | .ok (g?, e?) =>
      if optFalsy g? then
        match subdict with
        | some (.db d) => .ok (DB.sort d, [])
        | _ => .error "ill-typed value for a whole-database put"
      else if optFalsy e? then
        match subdict with
        | some (.grp grp) =>
          .ok (DB.sort_group (setKey db (nameStr g?) grp) (nameStr g?), [])
        | _ => .error "ill-typed value for a group put"
      else
        match subdict with
        | some (.ent ent) =>
          .ok (DB.sort_group
                (match findKey? db (nameStr g?) with
                 | some grp0 => setKey db (nameStr g?) (setKey grp0 (nameStr e?) ent)
                 | none => setKey db (nameStr g?) [(nameStr e?, ent)])
                (nameStr g?), [])
        | _ => .error "ill-typed value for an entry put"

/-- `DB.keywords`: the `keywords` field of the entry at `name`, coerced
to a list of lowercased strings (a list is mapped item-wise, a scalar
becomes a one-element list, an absent field the empty list).  The
source asserts that `get` returned an entry; `keywords` is only called
on names of existing entries, so the other cases (modelled as the empty
list) are unreachable. -/
def DB.keywords (db : Database) (name : Option String) : List String :=
  match DB.get db name with
  | .ok (some (.ent e)) =>
    match findKey? e "keywords" with
    | some (.list xs) => xs.map pyLower
    | some (.scalar s) => [pyLower s]
    | none => []
  | _ => []

/-- The `(groupname, entryname)` pairs of the database in iteration
order (`DB.__iter__`). -/
def dbPairs (db : Database) : List (String × String) :=
  (db.map (fun p => p.2.map (fun q => (p.1, q.1)))).flatten

/-- The loop body of `DB.find` over the remaining pairs: `ms` (the accumulating result store) and
the accumulated prompts thread through; queries are already lowercased. -/
def findLoop (db : Database) (qs : List String) :
    List (String × String) → Database × List String → Except String (Database × List String)
  | [], acc => .ok acc
  | (g, e) :: rest, (ms, prompts) =>
    let name := g ++ "/" ++ e
    if qs.any (fun q => pyIn q (pyLower e)) then
      match DB.get db (some name) with
      | .error m => .error m
      | .ok v =>
        match DB.put ms (some name) v with
        | .error m => .error m
        | .ok (m2, ps) => findLoop db qs rest (m2, prompts ++ ps)
    else
      match (DB.keywords db (some name)).find? (fun kw => qs.any (fun q => pyIn q kw)) with
      | none => findLoop db qs rest (ms, prompts)
      | some kw =>
        match DB.get db (some name) with
        | .error m => .error m
        | .ok v =>
          match DB.put ms (some (name ++ " (" ++ kw ++ ")")) v with
          | .error m => .error m
          | .ok (m2, ps) => findLoop db qs rest (m2, prompts ++ ps)

/-- `DB.find`: collect the entries whose name contains a query
(case-insensitively), or else whose first matching keyword contains a
query, into a fresh store (returned together with any prompts that the
internal `put` calls would issue). -/
def DB.find (db : Database) (names0 : List String) : Except String (Database × List String) :=
  findLoop db (names0.map pyLower) (dbPairs db) ([], [])

/-- Modelled from the claim wording for the refinement proof: the key
under which `find` includes the entry `groupname/entryname`, if any —
the normal key iff some query is a substring of the lowercased entry
name, otherwise the synthetic key of the first keyword containing a
query. -/
def matchKeySpec (db : Database) (qs : List String) (g e : String) : Option String :=
  let name := g ++ "/" ++ e
  if qs.any (fun q => pyIn q (pyLower e)) then some name
  else
    match (DB.keywords db (some name)).find? (fun kw => qs.any (fun q => pyIn q kw)) with
    | some kw => some (name ++ " (" ++ kw ++ ")")
    | none => none

/-- Modelled from the claim wording: the `find` loop driven by
`matchKeySpec` decisions. -/
def findSpecLoop (db : Database) (qs : List String) :
    List (String × String) → Database × List String → Except String (Database × List String)
  | [], acc => .ok acc
  | (g, e) :: rest, (ms, prompts) =>
    match matchKeySpec db qs g e with
    | none => findSpecLoop db qs rest (ms, prompts)
    | some key =>
      match DB.get db (some (g ++ "/" ++ e)) with
      | .error m => .error m
      | .ok v =>
        match DB.put ms (some key) v with
        | .error m => .error m
        | .ok (m2, ps) => findSpecLoop db qs rest (m2, prompts ++ ps)

/-- Modelled from the claim wording: `find` as a fold of puts over the
per-entry inclusion decisions. -/
def findSpec (db : Database) (names0 : List String) : Except String (Database × List String) :=
  findSpecLoop db (names0.map pyLower) (dbPairs db) ([], [])

/-- The persistent state that `DB.write` touches: the in-memory
database, the plaintext baseline recorded at read time (`self.data`),
the destination path, whether the destination file exists, and whether
the post-write hook has been registered. -/
structure WriteState where
  db : Database
  data : Option String
  path : String
  fileExists : Bool
  registeredHook : Bool
deriving Repr, DecidableEq

/-- The encryption-backend calls and file-system writes performed by
`DB.write`, in order. -/
inductive WEffect where
  | encrypt (plaintext : String)
  | writeTemp (content : String)
  | fsync
  | replace
deriving Repr, DecidableEq

/-- `confirm_overwrite(self.path, force)`: prompt only when the
destination file exists. -/
def overwritePrompts (st : WriteState) (force : Bool) : List String :=
  if st.fileExists then confirmPrompts ("Overwrite " ++ st.path ++ "?") force else []

/-- `DB.write`: serialize, skip entirely when the serialization equals
the recorded baseline, otherwise encrypt, write a temporary file in the
destination directory, fsync it and atomically replace the destination.
Serialization (`to_string`, a YAML dump) and encryption (`gpg`) are
external collaborators and are passed in as opaque functions. -/
def DB.write (serialize : Database → String) (encryptFn : String → String)
    (st : WriteState) (force : Bool) : WriteState × List WEffect × List String :=
  let prompts := overwritePrompts st force
  let data := serialize st.db
  if st.data = some data then (st, [], prompts)
  else
    let encrypted := encryptFn data
    ({ st with data := some data, fileExists := true, registeredHook := true },
     [.encrypt data, .writeTemp encrypted, .fsync, .replace], prompts)

/-- The two files that the write protocol touches: the destination
database file and the temporary file (content, or `none` if absent). -/
structure FileSys where
  dest : Option String
  temp : Option String
deriving Repr, DecidableEq

/-- The file-system meaning of one write effect: encryption and fsync do
not change file contents; the temporary write fills the temporary file;
`os.replace` atomically moves the temporary file over the destination. -/
def applyWEffect (fs : FileSys) : WEffect → FileSys
  | .encrypt _ => fs
  | .writeTemp c => { fs with temp := some c }
  | .fsync => fs
  | .replace => { dest := fs.temp, temp := none }

/-- The result of the autotype entry selection: the chosen name, and the
input handed to the external chooser (`none` when the chooser is not
invoked). -/
structure AutoSel where
  choice : String
  chooserInput : Option String
deriving Repr, DecidableEq

/-- One iteration of the autotype matching loop: append the name to
the name accumulator, and also to the match accumulator when some
candidate keyword (the lowercased entry name or a coerced keyword)
occurs in the lowercased window title. -/
def autotypeStep (db : Database) (title : String) :
    List String × List String → String × String → List String × List String
  | (names, ms), (g, e) =>
    if ([pyLower e] ++ DB.keywords db (some (g ++ "/" ++ e))).any
        (fun kw => pyIn kw (pyLower title)) then
      (names ++ [g ++ "/" ++ e], ms ++ [g ++ "/" ++ e])
    else
      (names ++ [g ++ "/" ++ e], ms)

/-- `sorted(...)` on a list of strings. -/
def sortStrings (l : List String) : List String :=
  List.insertionSort strLeP l

/-- The entry-selection portion of the `autotype` command: build the
candidate matches against the window title, select the single candidate
directly, or else hand the newline-joined sorted candidate list (or the
full name list when there are no candidates) to the external chooser
and take its answer, stripped. -/
def autotypeSelect (db : Database) (title : String) (chooser : String → String) : AutoSel :=
  let acc := (dbPairs db).foldl (autotypeStep db title) ([], [])
  let names := acc.1
  let ms := acc.2
  if ms.length = 1 then
    ⟨pyStrip ms.headI, none⟩
  else
    let choices := pyJoin "\n" (sortStrings (if ms.isEmpty then names else ms))
    ⟨pyStrip (chooser choices), some choices⟩

/-- Modelled from the claim wording: the candidate keyword set of an
entry for autotype matching. -/
def candidateKeywords (db : Database) (g e : String) : List String :=
  [pyLower e] ++ DB.keywords db (some (g ++ "/" ++ e))

/-- Modelled from the claim wording: an entry is a candidate match iff
some candidate keyword is a substring of the lowercased title. -/
def isCandidate (db : Database) (title : String) (p : String × String) : Bool :=
  (candidateKeywords db p.1 p.2).any (fun kw => pyIn kw (pyLower title))

/-- Modelled from the claim wording: the candidate matches, in database
iteration order, as `group/entry` names. -/
def candidatesSpec (db : Database) (title : String) : List String :=
  ((dbPairs db).filter (isCandidate db title)).map (fun p => p.1 ++ "/" ++ p.2)

/-- All `group/entry` names of the database in iteration order. -/
def allNames (db : Database) : List String :=
  (dbPairs db).map (fun p => p.1 ++ "/" ++ p.2)

/-- A list of names is in the lexicographic order used by Python sorting. -/
def keysSorted (l : List String) : Prop :=
  List.Sorted strLeP l

/-- The entries of the group named `g`, when present, iterate in
lexicographic order of the entry name. -/
def groupSortedAt (db : Database) (g : String) : Prop :=
  ∀ grp, findKey? db g = some grp → keysSorted (keysOf grp)

/-- Every group of the database has its entries in lexicographic order. -/
def allEntriesSorted (db : Database) : Prop :=
  ∀ p ∈ db, keysSorted (keysOf p.2)

/-- The groups of the database iterate in lexicographic order of the
group name. -/
def groupNamesSorted (db : Database) : Prop :=
  keysSorted (keysOf db)

/-- No group of the database is empty. -/
def noEmptyGroup (db : Database) : Prop :=
  ∀ p ∈ db, p.2 ≠ []

/-- The value handed to `DB.put` contains no empty group (only a
whole-database value can carry groups). -/
def subNoEmptyGroup : Option Sub → Prop
  | some (.db d) => noEmptyGroup d
  | _ => True

/-- A sample entry used by concrete checks. -/
def entSample : Entry :=
  [("password", .scalar "x")]

/-- A sample one-group one-entry database used by concrete checks. -/
def dbSample : Database :=
  [("g", [("e", entSample)])]

/-- The github entry of the find example. -/
def entGithub : Entry :=
  [("password", .scalar "gh")]

/-- The reddit entry of the find example. -/
def entReddit : Entry :=
  [("password", .scalar "rd")]

/-- The database of the find example in the specification. -/
def exampleDb : Database :=
  [("internet", [("github", entGithub), ("reddit", entReddit)])]

/-- The lexicographic comparison of character lists is total. -/
theorem strLeList_total (as : List Char) : ∀ bs, strLeList as bs = true ∨ strLeList bs as = true := by
  induction as with
  | nil => intro bs; left; rfl
  | cons a as ih =>
    intro bs
    cases bs with
    | nil => right; rfl
    | cons b bs =>
      simp only [strLeList, Bool.or_eq_true, Bool.and_eq_true, decide_eq_true_eq]
      rcases Nat.lt_trichotomy a.toNat b.toNat with h | h | h
      · exact Or.inl (Or.inl h)
      · rcases ih bs with h2 | h2
        · exact Or.inl (Or.inr ⟨h, h2⟩)
        · exact Or.inr (Or.inr ⟨h.symm, h2⟩)
      · exact Or.inr (Or.inl h)

/-- The lexicographic comparison of character lists is transitive. -/
theorem strLeList_trans :
    ∀ (as bs cs : List Char), strLeList as bs = true → strLeList bs cs = true →
    strLeList as cs = true := by
  intro as
  induction as with
  | nil => intro bs cs _ _; rfl
  | cons a as ih =>
    intro bs cs h1 h2
    cases bs with
    | nil => simp [strLeList] at h1
    | cons b bs =>
      cases cs with
      | nil => simp [strLeList] at h2
      | cons c cs =>
        simp only [strLeList, Bool.or_eq_true, Bool.and_eq_true, decide_eq_true_eq] at h1 h2 ⊢
        rcases h1 with h1 | ⟨h1e, h1r⟩
        · rcases h2 with h2 | ⟨h2e, _⟩
          · exact Or.inl (Nat.lt_trans h1 h2)
          · exact Or.inl (h2e ▸ h1)
        · rcases h2 with h2 | ⟨h2e, h2r⟩
          · exact Or.inl (h1e ▸ h2)
          · exact Or.inr ⟨h1e.trans h2e, ih bs cs h1r h2r⟩

instance {α : Type} : IsTotal (String × α) keyLe :=
  ⟨fun a b => strLeList_total a.1.toList b.1.toList⟩

instance {α : Type} : IsTrans (String × α) keyLe :=
  ⟨fun a b c h1 h2 => strLeList_trans a.1.toList b.1.toList c.1.toList h1 h2⟩

instance : IsTotal String strLeP :=
  ⟨fun a b => strLeList_total a.toList b.toList⟩

instance : IsTrans String strLeP :=
  ⟨fun a b c h1 h2 => strLeList_trans a.toList b.toList c.toList h1 h2⟩

/-- A nonempty list is not `isEmpty`. -/
theorem isEmpty_false_of_ne_nil {α : Type} {l : List α} (h : l ≠ []) : l.isEmpty = false := by
  cases l with
  | nil => exact absurd rfl h
  | cons a l => rfl

/-- Looking up the key just assigned returns the assigned value. -/
theorem findKey?_setKey {α : Type} (d : List (String × α)) (k : String) (v : α) :
    findKey? (setKey d k v) k = some v := by
  induction d with
  | nil => simp [setKey, findKey?]
  | cons p rest ih =>
    by_cases h : p.1 == k
    · simp [setKey, h, findKey?]
    · simp only [setKey, h, Bool.false_eq_true, if_false, findKey?, ih]

/-- A member of `setKey d k v` is the new binding or an old member. -/
theorem mem_setKey {α : Type} {p : String × α} {d : List (String × α)} {k : String} {v : α} :
    p ∈ setKey d k v → p = (k, v) ∨ p ∈ d := by
  induction d with
  | nil => intro h; simp [setKey] at h; exact Or.inl h
  | cons q rest ih =>
    intro h
    by_cases hq : q.1 == k
    · simp only [setKey, hq, if_true, List.mem_cons] at h
      rcases h with h | h
      · exact Or.inl h
      · exact Or.inr (List.mem_cons_of_mem q h)
    · simp only [setKey, hq, Bool.false_eq_true, if_false, List.mem_cons] at h
      rcases h with h | h
      · exact Or.inr (h ▸ List.mem_cons_self q rest)
      · rcases ih h with h2 | h2
        · exact Or.inl h2
        · exact Or.inr (List.mem_cons_of_mem q h2)

/-- Assignment never empties a dict. -/
theorem setKey_ne_nil {α : Type} (d : List (String × α)) (k : String) (v : α) :
    setKey d k v ≠ [] := by
  cases d with
  | nil => simp [setKey]
  | cons p rest =>
    by_cases h : p.1 == k
    · simp [setKey, h]
    · simp [setKey, h]

/-- Removing a key yields a sublist of the dict. -/
theorem eraseKey_sublist {α : Type} (d : List (String × α)) (k : String) :
    (eraseKey d k).Sublist d := by
  induction d with
  | nil => simp [eraseKey]
  | cons p rest ih =>
    by_cases h : p.1 == k
    · simp only [eraseKey, h, if_true]
      exact List.Sublist.cons p (List.Sublist.refl rest)
    · simpa [eraseKey, h] using List.Sublist.cons₂ p ih

/-- A member of `eraseKey d k` is a member of `d`. -/
theorem mem_eraseKey {α : Type} {p : String × α} {d : List (String × α)} {k : String} :
    p ∈ eraseKey d k → p ∈ d :=
  fun h => (eraseKey_sublist d k).subset h

/-- A successful lookup is a membership. -/
theorem findKey?_mem {α : Type} {d : List (String × α)} {k : String} {v : α} :
    findKey? d k = some v → (k, v) ∈ d := by
  induction d with
  | nil => intro h; simp [findKey?] at h
  | cons p rest ih =>
    intro h
    by_cases hq : p.1 == k
    · simp only [findKey?, hq, if_true, Option.some.injEq] at h
      have h1 : p.1 = k := by simpa using hq
      have hp : p = (k, v) := by
        cases p with
        | mk a b => simp_all
      exact List.mem_cons.mpr (Or.inl hp.symm)
    · simp only [findKey?, hq, Bool.false_eq_true, if_false] at h
      exact List.mem_cons_of_mem p (ih h)

/-- Erasure keeps the key list a sublist. -/
theorem keysOf_eraseKey_sublist {α : Type} (d : List (String × α)) (k : String) :
    (keysOf (eraseKey d k)).Sublist (keysOf d) :=
  List.Sublist.map Prod.fst (eraseKey_sublist d k)

/-- Sorting the entries of a group makes its key list sorted. -/
theorem keysSorted_sortEntries (g : Group) : keysSorted (keysOf (sortEntries g)) := by
  have h : List.Pairwise keyLe (sortEntries g) := List.sorted_insertionSort keyLe g
  exact List.pairwise_map.mpr h

/-- Sorting the entries of a group is a permutation. -/
theorem sortEntries_perm (g : Group) : (sortEntries g).Perm g :=
  List.perm_insertionSort keyLe g

/-- Sorting a nonempty group keeps it nonempty. -/
theorem sortEntries_ne_nil {g : Group} (h : g ≠ []) : sortEntries g ≠ [] := by
  intro hnil
  have := (sortEntries_perm g).length_eq
  rw [hnil] at this
  cases g with
  | nil => exact h rfl
  | cons a l => simp at this

/-- Sortedness of key lists restricts to sublists. -/
theorem keysSorted_of_sublist {l1 l2 : List String} (hs : l1.Sublist l2)
    (h : keysSorted l2) : keysSorted l1 :=
  List.Pairwise.sublist hs h

/-- C4 (amended): split is a pure function with split of an absent or
empty name giving (none, none), split "a" and "a/" giving ("a", none),
split "a/b" giving ("a", "b"); a name that is not in group form (the
text after its first slash is nonempty) and does not consist of exactly
two slash-separated parts fails with the terminal nested-too-deeply
error — in particular "a/b/c" fails; but a name with more than one
slash CAN be in group form (see the counterexample) and then succeeds. -/
theorem split_behavior :
    split none = .ok (none, none)
    ∧ split (some "") = .ok (none, none)
    ∧ split (some "a") = .ok (some "a", none)
    ∧ split (some "a/") = .ok (some "a", none)
    ∧ split (some "a/b") = .ok (some "a", some "b")
    ∧ split (some "a/b/c") = .error "a/b/c is nested too deeply"
    ∧ (∀ n : String, isgroup n = false → (pySplit n '/').length ≠ 2 →
        split (some n) = .error (n ++ " is nested too deeply")) := by
  refine ⟨rfl, rfl, rfl, rfl, rfl, rfl, ?_⟩
  intro n hg hlen
  have hne : n ≠ "" := by
    intro h
    rw [h] at hg
    exact absurd hg (by decide)
  simp only [split, if_neg hne, hg, Bool.false_eq_true, if_false]
  rcases hsp : pySplit n '/' with _ | ⟨a, _ | ⟨b, _ | _⟩⟩ <;> simp_all

/-- C4 witness: the general failure law applied to "a/b/c". -/
theorem split_behavior_witness :
    isgroup "a/b/c" = false ∧ split (some "a/b/c") = .error "a/b/c is nested too deeply" :=
  ⟨by decide, split_behavior.2.2.2.2.2.2 "a/b/c" (by decide) (by decide)⟩

/-- C4 counterexample: "a//" contains two slashes yet does not fail —
its text after the first slash is empty, so it is taken as the group
form and split returns ("a", none). -/
theorem split_double_slash_counterexample :
    split (some "a//") = .ok (some "a", none) ∧ ("a//".toList.count '/') = 2 :=
  ⟨rfl, by decide⟩

/-- C10 (amended): a name that splits to the empty-string group name
(exactly one slash, at the front, as in "/x") addresses the whole
database: get returns the entire database, put of a nonempty
database-shaped value replaces the entire database (sorting the entries
of each group), and pop clears the entire database behind the
whole-database confirmation prompt.  Names with empty text before the
first slash but more than one slash behave differently (see the
counterexample). -/
theorem empty_group_name_whole_db :
    split (some "/x") = .ok (some "", some "x")
    ∧ (∀ (db : Database) (name : Option String) (e? : Option String),
        split name = .ok (some "", e?) → DB.get db name = .ok (some (.db db)))
    ∧ (∀ (db d : Database) (name : Option String) (e? : Option String),
        split name = .ok (some "", e?) → d ≠ [] →
        DB.put db name (some (.db d)) = .ok (DB.sort d, []))
    ∧ (∀ (db : Database) (name : Option String) (e? : Option String) (force : Bool),
        split name = .ok (some "", e?) →
        DB.pop db name force = .ok ⟨[], none, confirmPrompts deleteDatabasePrompt force⟩) := by
  refine ⟨rfl, ?_, ?_, ?_⟩
  · intro db name e? hs
    simp [DB.get, hs, optFalsy]
  · intro db d name e? hs hd
    simp [DB.put, subFalsy, isEmpty_false_of_ne_nil hd, hs, optFalsy]
  · intro db name e? force hs
    simp [DB.pop, hs, optFalsy]

/-- C10 witness: the whole-database addressing applied to "/x" on the
sample database. -/
theorem empty_group_name_whole_db_witness :
    DB.get dbSample (some "/x") = .ok (some (.db dbSample))
    ∧ DB.put dbSample (some "/x") (some (.db [("h", [("e", entSample)])])) =
        .ok ([("h", [("e", entSample)])], [])
    ∧ DB.pop dbSample (some "/x") true = .ok ⟨[], none, []⟩ := by
  refine ⟨empty_group_name_whole_db.2.1 dbSample (some "/x") (some "x") rfl, ?_, ?_⟩
  · have h := empty_group_name_whole_db.2.2.1 dbSample [("h", [("e", entSample)])]
      (some "/x") (some "x") rfl (by simp)
    simpa [DB.sort, sortEntries, List.insertionSort, List.orderedInsert] using h
  · have h := empty_group_name_whole_db.2.2.2 dbSample (some "/x") (some "x") true rfl
    simpa [confirmPrompts] using h

/-- C10 counterexample: "/a/b" has empty text before its first slash,
yet split does not return an empty-string group name — it fails with
the nested-too-deeply error, so get, put and pop on it all fail instead
of addressing the whole database. -/
theorem empty_prefix_name_counterexample :
    ("/a/b".toList.takeWhile (fun c => c ≠ '/')) = []
    ∧ split (some "/a/b") = .error "/a/b is nested too deeply"
    ∧ DB.get dbSample (some "/a/b") = .error "/a/b is nested too deeply" :=
  ⟨by decide, rfl, rfl⟩

/-- C5: when the database serializes to exactly the baseline plaintext
recorded at read time, write performs no encryption call and no
file-system write, and leaves the whole write state (database file
existence, baseline, hook registration) unchanged; only the overwrite
confirmation, which precedes the skip check, may prompt. -/
theorem write_skip (serialize : Database → String) (encryptFn : String → String)
    (st : WriteState) (force : Bool) (h : st.data = some (serialize st.db)) :
    DB.write serialize encryptFn st force = (st, [], overwritePrompts st force) := by
  simp [DB.write, h]

/-- C5 witness: a state whose serialization matches the baseline is
left untouched with no effects. -/
theorem write_skip_witness :
    DB.write (fun _ => "P") (fun _ => "E") ⟨dbSample, some "P", "db.gpg", true, false⟩ true =
      (⟨dbSample, some "P", "db.gpg", true, false⟩, [], []) := by
  have h := write_skip (fun _ => "P") (fun _ => "E")
    ⟨dbSample, some "P", "db.gpg", true, false⟩ true rfl
  simpa [overwritePrompts, confirmPrompts] using h

/-- C9: a write that actually writes performs exactly encrypt, then a
temporary-file write, then fsync, then a single atomic replace; running
any proper prefix of that effect list (a crash before the rename)
leaves the destination file exactly as it was, and the full list
switches it atomically to the ciphertext. -/
theorem write_atomic (serialize : Database → String) (encryptFn : String → String)
    (st : WriteState) (force : Bool) (st2 : WriteState) (effs : List WEffect)
    (ps : List String) (hw : DB.write serialize encryptFn st force = (st2, effs, ps))
    (h : st.data ≠ some (serialize st.db)) :
    effs = [.encrypt (serialize st.db), .writeTemp (encryptFn (serialize st.db)),
            .fsync, .replace]
    ∧ (∀ fs : FileSys,
        (∀ k : Nat, k < effs.length → ((effs.take k).foldl applyWEffect fs).dest = fs.dest)
        ∧ (effs.foldl applyWEffect fs).dest = some (encryptFn (serialize st.db))) := by
  have heff : effs = [.encrypt (serialize st.db), .writeTemp (encryptFn (serialize st.db)),
      .fsync, .replace] := by
    have := hw
    simp only [DB.write, if_neg (fun hx => h hx)] at this
    exact ((Prod.mk.injEq _ _ _ _).mp ((Prod.mk.injEq _ _ _ _).mp this).2 |>.1).symm
  subst heff
  refine ⟨rfl, ?_⟩
  intro fs
  constructor
  · intro k hk
    simp only [List.length_cons, List.length_nil] at hk
    interval_cases k <;> rfl
  · rfl

/-- C9 witness: the effect list of a concrete write, with a crash after
two effects leaving the original destination intact and the full run
installing the ciphertext. -/
theorem write_atomic_witness :
    (([WEffect.encrypt "Q", .writeTemp "E", .fsync, .replace].take 2).foldl
        applyWEffect ⟨some "orig", none⟩).dest = some "orig"
    ∧ ([WEffect.encrypt "Q", .writeTemp "E", .fsync, .replace].foldl
        applyWEffect ⟨some "orig", none⟩).dest = some "E" := by
  have h := write_atomic (fun _ => "Q") (fun _ => "E")
    ⟨dbSample, some "P", "db.gpg", true, false⟩ true
    ⟨dbSample, some "Q", "db.gpg", true, true⟩
    [.encrypt "Q", .writeTemp "E", .fsync, .replace] [] rfl (by simp)
  exact ⟨(h.2 ⟨some "orig", none⟩).1 2 (by simp), (h.2 ⟨some "orig", none⟩).2⟩

/-- C1 (amended): put of an empty or absent value is exactly pop with
the DEFAULT force=False — same resulting database and the same
interactive confirmation prompts, the popped value being discarded; and
the force flag of pop changes only the prompts, never the resulting
database or the popped value.  The claimed equivalence with
pop(name, force=True) holds for the database state but not for the
confirmation behaviour (see the counterexample). -/
theorem put_empty_eq_pop_default :
    (∀ (db : Database) (name : Option String) (v : Option Sub), subFalsy v = true →
        DB.put db name v = (DB.pop db name false).map (fun r => (r.db, r.prompts)))
    ∧ (∀ (db : Database) (name : Option String) (force force2 : Bool),
        (DB.pop db name force).map (fun r => (r.db, r.popped)) =
        (DB.pop db name force2).map (fun r => (r.db, r.popped))) := by
  constructor
  · intro db name v hv
    simp only [DB.put, hv, if_true]
    cases hp : DB.pop db name false <;> simp [hp, Except.map]
  · intro db name f1 f2
    rcases hs : split name with m | ⟨g?, e?⟩
    · simp [DB.pop, hs]
    · by_cases hg : optFalsy g? = true
      · simp [DB.pop, hs, hg, Except.map]
      · rw [Bool.not_eq_true] at hg
        rcases hf : findKey? db (nameStr g?) with _ | grp
        · simp [DB.pop, hs, hg, hf]
        · by_cases he : optFalsy e? = true
          · simp [DB.pop, hs, hg, hf, he, Except.map]
          · rw [Bool.not_eq_true] at he
            rcases hfe : findKey? grp (nameStr e?) with _ | ent
            · simp [DB.pop, hs, hg, hf, hfe, he]
            · simp [DB.pop, hs, hg, hf, hfe, he, Except.map]

/-- C1 witness: the equivalence applied to an absent value on the
sample database. -/
theorem put_empty_eq_pop_default_witness :
    subFalsy none = true
    ∧ DB.put dbSample (some "g") none =
        (DB.pop dbSample (some "g") false).map (fun r => (r.db, r.prompts)) :=
  ⟨rfl, put_empty_eq_pop_default.1 dbSample (some "g") none rfl⟩

/-- C1 counterexample: put of an empty value prompts for confirmation
(force defaults to False inside put), while pop with force=True prompts
for nothing — so put(name, empty) is not equivalent to
pop(name, force=True) as claimed. -/
theorem put_empty_prompts_counterexample :
    DB.put dbSample (some "g") (some (.grp [])) = .ok ([], [deleteGroupPrompt "g"])
    ∧ DB.pop dbSample (some "g") true = .ok ⟨[], some (.grp [("e", entSample)]), []⟩
    ∧ ([deleteGroupPrompt "g"] : List String) ≠ [] :=
  ⟨rfl, rfl, by simp⟩

/-- C6: pop of a name whose group, or whose entry inside an existing
group, does not exist returns the not-found sentinel (no popped value),
issues no prompt, and leaves the database unchanged; get likewise
returns no value instead of an error. -/
theorem notfound_no_mutation :
    (∀ (db : Database) (name : Option String) (g : String) (e? : Option String) (force : Bool),
        split name = .ok (some g, e?) → g ≠ "" → findKey? db g = none →
        DB.pop db name force = .ok ⟨db, none, []⟩ ∧ DB.get db name = .ok none)
    ∧ (∀ (db : Database) (name : Option String) (g e : String) (grp : Group) (force : Bool),
        split name = .ok (some g, some e) → g ≠ "" → e ≠ "" →
        findKey? db g = some grp → findKey? grp e = none →
        DB.pop db name force = .ok ⟨db, none, []⟩ ∧ DB.get db name = .ok none) := by
  constructor
  · intro db name g e? force hs hg hf
    have hgf : optFalsy (some g) = false := by
      simp [optFalsy]
      exact hg
    constructor
    · simp [DB.pop, hs, hgf, nameStr, hf]
    · by_cases he : optFalsy e? = true
      · simp [DB.get, hs, hgf, nameStr, hf, he]
      · rw [Bool.not_eq_true] at he
        simp [DB.get, hs, hgf, nameStr, hf, he, hasKey]
  · intro db name g e grp force hs hg heg hf hfe
    have hgf : optFalsy (some g) = false := by
      simp [optFalsy]
      exact hg
    have hef : optFalsy (some e) = false := by
      simp [optFalsy]
      exact heg
    constructor
    · simp [DB.pop, hs, hgf, hef, nameStr, hf, hfe]
    · simp [DB.get, hs, hgf, hef, nameStr, hf, hfe, hasKey]

/-- C6 witness: a missing group and a missing entry on the sample
database, with force irrelevant. -/
theorem notfound_no_mutation_witness :
    (DB.pop dbSample (some "h") true = .ok ⟨dbSample, none, []⟩
      ∧ DB.get dbSample (some "h") = .ok none)
    ∧ (DB.pop dbSample (some "g/zz") true = .ok ⟨dbSample, none, []⟩
      ∧ DB.get dbSample (some "g/zz") = .ok none) :=
  ⟨notfound_no_mutation.1 dbSample (some "h") "h" none true rfl (by decide) rfl,
   notfound_no_mutation.2 dbSample (some "g/zz") "g" "zz" [("e", entSample)] true rfl
     (by decide) (by decide) rfl rfl⟩

/-- A list whose `isEmpty` test is not true is not the empty list. -/
theorem ne_nil_of_isEmpty_ne_true {α : Type} {l : List α} (h : ¬ l.isEmpty = true) :
    l ≠ [] := by
  intro hx
  subst hx
  exact h rfl

/-- Pop never introduces an empty group. -/
theorem pop_preserves_noEmptyGroup (db : Database) (name : Option String) (force : Bool)
    (r : PopOut) (hne : noEmptyGroup db) (hpop : DB.pop db name force = .ok r) :
    noEmptyGroup r.db := by
  unfold DB.pop at hpop
  split at hpop
  · simp at hpop
  · split at hpop
    · cases hpop
      intro p hp
      simp at hp
    · split at hpop
      · cases hpop
        exact hne
      · split at hpop
        · cases hpop
          intro p hp
          exact hne p (mem_eraseKey hp)
        · split at hpop
          · cases hpop
            exact hne
          · cases hpop
            intro p hp
            simp only at hp
            split at hp
            · exact hne p (mem_eraseKey hp)
            · rename_i hemp
              rcases mem_setKey hp with hp2 | hp2
              · subst hp2
                exact ne_nil_of_isEmpty_ne_true hemp
              · exact hne p hp2

/-- Pop keeps the entries of every group sorted. -/
theorem pop_preserves_entriesSorted (db : Database) (name : Option String) (force : Bool)
    (r : PopOut) (hsor : allEntriesSorted db) (hpop : DB.pop db name force = .ok r) :
    allEntriesSorted r.db := by
  unfold DB.pop at hpop
  split at hpop
  · simp at hpop
  · split at hpop
    · cases hpop
      intro p hp
      simp at hp
    · split at hpop
      · cases hpop
        exact hsor
      · rename_i grp hfg
        split at hpop
        · cases hpop
          intro p hp
          exact hsor p (mem_eraseKey hp)
        · split at hpop
          · cases hpop
            exact hsor
          · cases hpop
            intro p hp
            simp only at hp
            split at hp
            · exact hsor p (mem_eraseKey hp)
            · rcases mem_setKey hp with hp2 | hp2
              · subst hp2
                exact keysSorted_of_sublist (keysOf_eraseKey_sublist _ _)
                  (hsor _ (findKey?_mem hfg))
              · exact hsor p hp2

/-- A nonempty string is not falsy. -/
theorem optFalsy_some_false {g : String} (h : g ≠ "") : optFalsy (some g) = false := by
  cases hx : (g == "") with
  | true => exact absurd (eq_of_beq hx) h
  | false => exact hx

/-- Sorting the group just assigned rewrites its value to the sorted one. -/
theorem sort_group_setKey {db : Database} {k : String} {grp : Group} :
    DB.sort_group (setKey db k grp) k = setKey (setKey db k grp) k (sortEntries grp) := by
  simp [DB.sort_group, findKey?_setKey]

/-- Put never introduces an empty group, provided a whole-database value
itself contains none. -/
theorem put_preserves_noEmptyGroup (db : Database) (name : Option String) (v : Option Sub)
    (db2 : Database) (ps : List String) (hne : noEmptyGroup db) (hv : subNoEmptyGroup v)
    (hput : DB.put db name v = .ok (db2, ps)) : noEmptyGroup db2 := by
  unfold DB.put at hput
  by_cases hsubf : subFalsy v = true
  · rw [if_pos hsubf] at hput
    cases hp : DB.pop db name false with
    | error m =>
      rw [hp] at hput
      cases hput
    | ok r =>
      rw [hp] at hput
      cases hput
      exact pop_preserves_noEmptyGroup db name false r hne hp
  · rw [if_neg hsubf] at hput
    split at hput
    · cases hput
    · split at hput
      · split at hput
        · rename_i d
          cases hput
          intro p hp
          rcases List.mem_map.mp hp with ⟨q, hq, rfl⟩
          exact sortEntries_ne_nil (hv q hq)
        · cases hput
      · split at hput
        · split at hput
          · rename_i grp
            have hgrp : grp ≠ [] := ne_nil_of_isEmpty_ne_true (fun hx => hsubf hx)
            cases hput
            rw [sort_group_setKey]
            intro p hp
            rcases mem_setKey hp with hp2 | hp2
            · subst hp2
              exact sortEntries_ne_nil hgrp
            · rcases mem_setKey hp2 with hp3 | hp3
              · subst hp3
                exact hgrp
              · exact hne p hp3
          · cases hput
        · split at hput
          · split at hput
            · cases hput
              rw [sort_group_setKey]
              intro p hp
              rcases mem_setKey hp with hp2 | hp2
              · subst hp2
                exact sortEntries_ne_nil (setKey_ne_nil _ _ _)
              · rcases mem_setKey hp2 with hp3 | hp3
                · subst hp3
                  exact setKey_ne_nil _ _ _
                · exact hne p hp3
            · cases hput
              rw [sort_group_setKey]
              intro p hp
              rcases mem_setKey hp with hp2 | hp2
              · subst hp2
                exact sortEntries_ne_nil (by simp)
              · rcases mem_setKey hp2 with hp3 | hp3
                · subst hp3
                  simp
                · exact hne p hp3
          · cases hput

/-- C2 (amended): after a put on a group (a group-level put of a
nonempty group value, or an entry-level put of a nonempty entry), that
group's entries iterate in lexicographic order of the entry name; pop
preserves sortedness of every group's entries; and a whole-database put
leaves every group's entries sorted.  The group names themselves are
NOT restored to lexicographic order by a whole-database put — group
iteration order is the insertion order of the supplied mapping (see the
counterexample). -/
theorem sort_invariants :
    (∀ (db : Database) (name : Option String) (g : String) (grp : Group)
        (db2 : Database) (ps : List String),
        split name = .ok (some g, none) → g ≠ "" → grp ≠ [] →
        DB.put db name (some (.grp grp)) = .ok (db2, ps) → groupSortedAt db2 g)
    ∧ (∀ (db : Database) (name : Option String) (g e : String) (ent : Entry)
        (db2 : Database) (ps : List String),
        split name = .ok (some g, some e) → g ≠ "" → e ≠ "" → ent ≠ [] →
        DB.put db name (some (.ent ent)) = .ok (db2, ps) → groupSortedAt db2 g)
    ∧ (∀ (db : Database) (name : Option String) (force : Bool) (r : PopOut),
        allEntriesSorted db → DB.pop db name force = .ok r → allEntriesSorted r.db)
    ∧ (∀ (db : Database) (name : Option String) (d : Database)
        (g? e? : Option String) (db2 : Database) (ps : List String),
        split name = .ok (g?, e?) → optFalsy g? = true →
        DB.put db name (some (.db d)) = .ok (db2, ps) → allEntriesSorted db2) := by
  refine ⟨?_, ?_, ?_, ?_⟩
  · intro db name g grp db2 ps hs hg hgrp hput
    have hsub : subFalsy (some (.grp grp)) = false := isEmpty_false_of_ne_nil hgrp
    have hgf : optFalsy (some g) = false := optFalsy_some_false hg
    have hcalc : DB.put db name (some (.grp grp)) =
        .ok (DB.sort_group (setKey db g grp) g, []) := by
      simp [DB.put, hsub, hs, hgf, optFalsy, nameStr, hg]
    rw [hcalc] at hput
    cases hput
    rw [sort_group_setKey]
    intro grp2 hfind
    rw [findKey?_setKey] at hfind
    cases hfind
    exact keysSorted_sortEntries grp
  · intro db name g e ent db2 ps hs hg he hent hput
    have hsub : subFalsy (some (.ent ent)) = false := isEmpty_false_of_ne_nil hent
    have hgf : optFalsy (some g) = false := optFalsy_some_false hg
    have hef : optFalsy (some e) = false := optFalsy_some_false he
    rcases hdb : findKey? db g with _ | grp0
    · have hcalc : DB.put db name (some (.ent ent)) =
          .ok (DB.sort_group (setKey db g [(e, ent)]) g, []) := by
        simp [DB.put, hsub, hs, hgf, hef, optFalsy, nameStr, hg, he, hdb]
      rw [hcalc] at hput
      cases hput
      rw [sort_group_setKey]
      intro grp2 hfind
      rw [findKey?_setKey] at hfind
      cases hfind
      exact keysSorted_sortEntries _
    · have hcalc : DB.put db name (some (.ent ent)) =
          .ok (DB.sort_group (setKey db g (setKey grp0 e ent)) g, []) := by
        simp [DB.put, hsub, hs, hgf, hef, optFalsy, nameStr, hg, he, hdb]
      rw [hcalc] at hput
      cases hput
      rw [sort_group_setKey]
      intro grp2 hfind
      rw [findKey?_setKey] at hfind
      cases hfind
      exact keysSorted_sortEntries _
  · intro db name force r hsor hpop
    exact pop_preserves_entriesSorted db name force r hsor hpop
  · intro db name d g? e? db2 ps hs hg hput
    by_cases hd : d.isEmpty = true
    · have hpop : DB.pop db name false =
          .ok ⟨[], none, confirmPrompts deleteDatabasePrompt false⟩ := by
        simp [DB.pop, hs, hg]
      have hcalc : DB.put db name (some (.db d)) =
          .ok ([], confirmPrompts deleteDatabasePrompt false) := by
        simp [DB.put, subFalsy, hd, hpop]
      rw [hcalc] at hput
      cases hput
      intro p hp
      simp at hp
    · have hcalc : DB.put db name (some (.db d)) = .ok (DB.sort d, []) := by
        simp [DB.put, subFalsy, hd, hs, hg]
      rw [hcalc] at hput
      cases hput
      intro p hp
      rcases List.mem_map.mp hp with ⟨q, hq, rfl⟩
      exact keysSorted_sortEntries q.2

/-- C2 witness: a group-level put of entries given in reverse order
leaves the group sorted. -/
theorem sort_invariants_witness :
    groupSortedAt [("g", [("a", entSample), ("b", entSample)])] "g" :=
  sort_invariants.1 [] (some "g") "g" [("b", entSample), ("a", entSample)]
    [("g", [("a", entSample), ("b", entSample)])] [] rfl
    (by decide) (by decide) rfl

/-- C2 counterexample: a whole-database put does not sort the group
names — the groups of the supplied mapping keep their insertion order
("b" before "a"), so the claimed group-name sort invariant fails. -/
theorem group_order_counterexample :
    DB.put [] none (some (.db [("b", [("e", entSample)]), ("a", [("e", entSample)])])) =
      .ok ([("b", [("e", entSample)]), ("a", [("e", entSample)])], [])
    ∧ ¬ groupNamesSorted [("b", [("e", entSample)]), ("a", [("e", entSample)])] := by
  constructor
  · rfl
  · unfold groupNamesSorted keysSorted keysOf
    decide

/-- C3 (amended): pop never leaves an empty group (popping the last
entry removes the group), put preserves the no-empty-group invariant
whenever a whole-database value itself contains no empty group (an
unconstrained whole-database put can install one — see the
counterexample), and pop of the only entry of the only group empties
the database. -/
theorem no_empty_group_invariants :
    (∀ (db : Database) (name : Option String) (force : Bool) (r : PopOut),
        noEmptyGroup db → DB.pop db name force = .ok r → noEmptyGroup r.db)
    ∧ (∀ (db : Database) (name : Option String) (v : Option Sub)
        (db2 : Database) (ps : List String),
        noEmptyGroup db → subNoEmptyGroup v → DB.put db name v = .ok (db2, ps) →
        noEmptyGroup db2)
    ∧ (∀ (g e : String) (ent : Entry) (name : Option String) (force : Bool),
        split name = .ok (some g, some e) → g ≠ "" → e ≠ "" →
        DB.pop [(g, [(e, ent)])] name force =
          .ok ⟨[], some (.ent ent),
               confirmPrompts (deleteEntryPrompt (nameStr name)) force⟩) := by
  refine ⟨pop_preserves_noEmptyGroup, put_preserves_noEmptyGroup, ?_⟩
  intro g e ent name force hs hg he
  have hgf : optFalsy (some g) = false := optFalsy_some_false hg
  have hef : optFalsy (some e) = false := optFalsy_some_false he
  simp [DB.pop, hs, hgf, hef, nameStr, findKey?, eraseKey]

/-- C3 witness: popping the only entry of the only group yields the
empty database. -/
theorem no_empty_group_invariants_witness :
    DB.pop [("g", [("only-entry", entSample)])] (some "g/only-entry") true =
      .ok ⟨[], some (.ent entSample), []⟩ := by
  have h := no_empty_group_invariants.2.2 "g" "only-entry" entSample
    (some "g/only-entry") true rfl (by decide) (by decide)
  simpa [confirmPrompts, nameStr] using h

/-- C3 counterexample: a whole-database put installs the supplied
mapping as given, so putting a mapping that contains an empty group
violates the claimed invariant that every store operation on a database
without empty groups yields a database without empty groups. -/
theorem empty_group_put_counterexample :
    noEmptyGroup ([] : Database)
    ∧ DB.put [] none (some (.db [("g", [])])) = .ok ([("g", [])], [])
    ∧ ¬ noEmptyGroup [("g", [])] := by
  refine ⟨?_, rfl, ?_⟩
  · intro p hp
    simp at hp
  · intro h
    exact h ("g", []) (by simp) rfl

/-- The find loop and its specification-side reformulation agree on
every pair list and accumulator. -/
theorem findLoop_eq_findSpecLoop (db : Database) (qs : List String) :
    ∀ (pairs : List (String × String)) (acc : Database × List String),
    findLoop db qs pairs acc = findSpecLoop db qs pairs acc := by
  intro pairs
  induction pairs with
  | nil => intro acc; rfl
  | cons p rest ih =>
    intro acc
    rcases p with ⟨g, e⟩
    rcases acc with ⟨ms, prompts⟩
    simp only [findLoop, findSpecLoop, matchKeySpec]
    by_cases hq : (qs.any (fun q => pyIn q (pyLower e))) = true
    · simp only [hq, if_true]
      cases hget : DB.get db (some (g ++ "/" ++ e)) with
      | error m => rfl
      | ok v =>
        cases hput : DB.put ms (some (g ++ "/" ++ e)) v with
        | error m => simp [hput]
        | ok mp =>
          rcases mp with ⟨m2, ps⟩
          simp only [hput]
          exact ih (m2, prompts ++ ps)
    · rw [Bool.not_eq_true] at hq
      simp only [hq, Bool.false_eq_true, if_false]
      cases hkw : (DB.keywords db (some (g ++ "/" ++ e))).find?
          (fun kw => qs.any (fun q => pyIn q kw)) with
      | none => exact ih (ms, prompts)
      | some kw =>
        cases hget : DB.get db (some (g ++ "/" ++ e)) with
        | error m => rfl
        | ok v =>
          cases hput : DB.put ms (some (g ++ "/" ++ e ++ " (" ++ kw ++ ")")) v with
          | error m => simp [hput]
          | ok mp =>
            rcases mp with ⟨m2, ps⟩
            simp only [hput]
            exact ih (m2, prompts ++ ps)

/-- C7: find includes each entry exactly as the per-entry decision rule
dictates — under its normal group/entry key iff some lowercased query
is a substring of the lowercased entry name, otherwise under the
synthetic key of the first keyword containing a query (findSpec is that
rule verbatim); and find(["red"]) on the github/reddit example returns
exactly internet/reddit, with no prompts. -/
theorem find_matches_spec :
    (∀ (db : Database) (qs : List String), DB.find db qs = findSpec db qs)
    ∧ DB.find exampleDb ["red"] = .ok ([("internet", [("reddit", entReddit)])], []) := by
  constructor
  · intro db qs
    unfold DB.find findSpec
    exact findLoop_eq_findSpecLoop db (qs.map pyLower) (dbPairs db) ([], [])
  · rfl

/-- The autotype matching loop computes all names and the candidate
matches of the specification-side filter. -/
theorem autotypeStep_foldl (db : Database) (title : String) :
    ∀ (pairs : List (String × String)) (ns ms : List String),
    pairs.foldl (autotypeStep db title) (ns, ms) =
      (ns ++ pairs.map (fun p => p.1 ++ "/" ++ p.2),
       ms ++ (pairs.filter (isCandidate db title)).map (fun p => p.1 ++ "/" ++ p.2)) := by
  intro pairs
  induction pairs with
  | nil => intro ns ms; simp
  | cons p rest ih =>
    intro ns ms
    rcases p with ⟨g, e⟩
    simp only [List.foldl_cons]
    by_cases hc : isCandidate db title (g, e) = true
    · have hc2 : (([pyLower e] ++ DB.keywords db (some (g ++ "/" ++ e))).any
          (fun kw => pyIn kw (pyLower title))) = true := hc
      have hstep : autotypeStep db title (ns, ms) (g, e) =
          (ns ++ [g ++ "/" ++ e], ms ++ [g ++ "/" ++ e]) := by
        simp only [autotypeStep]
        rw [hc2]
        rfl
      rw [hstep, ih]
      simp only [List.filter_cons, hc, if_true, List.map_cons, List.append_assoc,
        List.singleton_append]
    · rw [Bool.not_eq_true] at hc
      have hc2 : (([pyLower e] ++ DB.keywords db (some (g ++ "/" ++ e))).any
          (fun kw => pyIn kw (pyLower title))) = false := hc
      have hstep : autotypeStep db title (ns, ms) (g, e) = (ns ++ [g ++ "/" ++ e], ms) := by
        simp only [autotypeStep]
        rw [hc2]
        rfl
      rw [hstep, ih]
      simp only [List.filter_cons, hc, Bool.false_eq_true, if_false, List.map_cons,
        List.append_assoc, List.singleton_append]

/-- C8: an entry is an autotype candidate iff some element of the set
made of the lowercased entry name and the coerced keywords is a
substring of the lowercased window title; a single candidate is
selected directly (stripped) without invoking the chooser; with zero or
several candidates the chooser receives the newline-joined sorted
candidate list (the full sorted name list when there is no candidate)
and its answer, stripped, is selected. -/
theorem autotype_selection (db : Database) (title : String) (chooser : String → String) :
    (∀ c : String, candidatesSpec db title = [c] →
        autotypeSelect db title chooser = ⟨pyStrip c, none⟩)
    ∧ ((candidatesSpec db title).length ≠ 1 →
        autotypeSelect db title chooser =
          ⟨pyStrip (chooser (pyJoin "\n" (sortStrings
              (if (candidatesSpec db title).isEmpty then allNames db
               else candidatesSpec db title)))),
           some (pyJoin "\n" (sortStrings
              (if (candidatesSpec db title).isEmpty then allNames db
               else candidatesSpec db title)))⟩) := by
  have hfold : (dbPairs db).foldl (autotypeStep db title) ([], []) =
      (allNames db, candidatesSpec db title) := by
    rw [autotypeStep_foldl]
    simp [allNames, candidatesSpec]
  constructor
  · intro c hc
    simp only [autotypeSelect, hfold, hc]
    simp [List.headI]
  · intro hlen
    simp only [autotypeSelect, hfold]
    rw [if_neg hlen]

/-- C8 witness: a single candidate matching the window title is chosen
without the chooser; with no candidate the chooser receives the full
sorted name list and its stripped answer is chosen. -/
theorem autotype_selection_witness :
    autotypeSelect exampleDb "Reddit - Mozilla Firefox" (fun s => s) =
      ⟨"internet/reddit", none⟩
    ∧ autotypeSelect exampleDb "zzz" (fun _ => " pick ") =
      ⟨"pick", some ("internet/github" ++ "\n" ++ "internet/reddit")⟩ := by
  constructor
  · exact (autotype_selection exampleDb "Reddit - Mozilla Firefox" (fun s => s)).1
      "internet/reddit" rfl
  · have h := (autotype_selection exampleDb "zzz" (fun _ => " pick ")).2 (by decide)
    exact h.trans rfl

end Passata
